import Mathlib

/-!
# Virtual payment service: the idempotent transfer handler

A shallow embedding of `src/main.go`.  The SQLite database behind the global
handle `DB` is modelled as a value of type `DB` (two tables of rows); every
database call of `paymentHandler` is modelled by a function on that value, and
the errors the storage layer may return are an explicit input (`Faults`), so
the handler is a total function from (faults, header value, committed store)
to (response written, committed store afterwards, trace of database calls).
A transaction is a pair of the committed store and a working copy: statements
act on the working copy, `Commit` installs it and `Rollback` drops it.

Balances are what SQLite keeps in the `INTEGER` column: a signed 64-bit
integer, or, once `balance - 10` or `balance + 10` has left the 64-bit range,
the `REAL` that SQLite computes and stores instead, without an error.
-/

namespace VPS

/-! ## Data model (the schema created by `initDB`) -/

/-- Smallest value of storage class INTEGER, `-2^63`. -/
def int64Min : Int := -9223372036854775808

/-- Largest value of storage class INTEGER, `2^63 - 1`. -/
def int64Max : Int := 9223372036854775807

/-- Is the integer a signed 64-bit value? -/
def inInt64 (i : Int) : Bool := decide (int64Min ≤ i) && decide (i ≤ int64Max)

/-- Content of a `balance` cell: an INTEGER, or the REAL left behind by an
update whose result did not fit 64 bits; `real x` is the REAL of value `x`. -/
inductive Value where
  | int (i : Int)
  | real (x : Int)
  deriving DecidableEq, Repr

/-- The number a cell stands for. -/
def Value.num : Value → Int
  | Value.int i => i
  | Value.real x => x

/-- Does `balance + d` on this cell stay an INTEGER? -/
def Value.fits (v : Value) (d : Int) : Bool :=
  match v with
  | Value.int i => inInt64 (i + d)
  | Value.real _ => false

/-- The cell after `SET balance = balance + d`, for the `d` of the handler, 10
and -10.  An INTEGER whose sum fits 64 bits is added exactly.  Otherwise SQLite
adds in floating point and the column keeps the REAL: the double nearest to a
sum within 10 of the 64-bit bounds is `2^63` or `-2^63`, neither of which the
column turns back into an INTEGER.  A REAL of that size absorbs 10. -/
def Value.add (v : Value) (d : Int) : Value :=
  match v with
  | Value.int i =>
    if inInt64 (i + d) then Value.int (i + d)
    else if i + d < 0 then Value.real int64Min
    else Value.real (int64Max + 1)
  | Value.real x => Value.real x

/-- Row of table `accounts`: `id TEXT PRIMARY KEY, balance INTEGER NOT NULL`. -/
structure Account where
  id : String
  balance : Value
  deriving DecidableEq, Repr

/-- Row of table `transactions`:
`idempotency_key TEXT PRIMARY KEY, from_user TEXT, to_user TEXT, amount INTEGER`. -/
structure Transaction where
  idempotency_key : String
  from_user : String
  to_user : String
  amount : Int
  deriving DecidableEq, Repr

/-- Committed content of the database file: the rows of both tables. -/
structure DB where
  accounts : List Account
  transactions : List Transaction
  deriving DecidableEq, Repr

/-- The primary key of table `accounts` holds: no two rows share an id. -/
def uniqueIds (db : DB) : Prop :=
  (db.accounts.map Account.id).Nodup

instance (db : DB) : Decidable (uniqueIds db) := by
  unfold uniqueIds; exact inferInstance

/-- Does table `accounts` hold a row with this id? -/
def hasAccount (db : DB) (id : String) : Bool :=
  db.accounts.any (fun r => r.id == id)

/-- Balance cell stored for an account id, `none` when there is no such row. -/
def balance (db : DB) (id : String) : Option Value :=
  (db.accounts.find? (fun r => r.id == id)).map Account.balance

/-- Sum of the balances of all account rows. -/
def totalBalance (db : DB) : Int :=
  (db.accounts.map (fun r => r.balance.num)).sum

/-- Does `balance + d` stay an INTEGER on every row with this id? -/
def fits (db : DB) (id : String) (d : Int) : Bool :=
  db.accounts.all (fun r => r.id != id || r.balance.fits d)

/-- Does table `transactions` hold a row with this idempotency key? -/
def hasKey (db : DB) (key : String) : Bool :=
  db.transactions.any (fun t => t.idempotency_key == key)

/-- The ledger rows stored under one idempotency key. -/
def recordsFor (db : DB) (key : String) : List Transaction :=
  db.transactions.filter (fun t => t.idempotency_key == key)

/-! ## SQL statements -/

/-- A bound on the rows of a table: an SQLite file has fewer than `2^32` pages
of at most `2^16` bytes, so fewer than `2^48` bytes, and every row takes at
least one. -/
def maxLedgerRows : Nat := 281474976710656

/-- Is there room for one more ledger row? -/
def hasRoom (db : DB) : Bool := decide (db.transactions.length < maxLedgerRows)

/-- `INSERT OR IGNORE INTO accounts (id, balance) VALUES (id, bal)`: the row is
added unless a row with that id exists. -/
def insertOrIgnoreAccount (id : String) (bal : Int) (db : DB) : DB :=
  if hasAccount db id then db
  else ⟨db.accounts ++ [⟨id, Value.int bal⟩], db.transactions⟩

/-- `UPDATE accounts SET balance = balance + delta WHERE id = id`: every
matching row is rewritten; a statement that matches no row changes nothing and
is not an error. -/
def updateBalance (id : String) (delta : Int) (db : DB) : DB :=
  ⟨db.accounts.map (fun r => if r.id = id then ⟨r.id, r.balance.add delta⟩ else r),
    db.transactions⟩

/-- `INSERT INTO transactions (...) VALUES (key, from, to, amount)`: rejected
(`none`) by the primary key when a row with that key exists, and by the
database when it is full. -/
def insertTransaction (t : Transaction) (db : DB) : Option DB :=
  if hasKey db t.idempotency_key then none
  else if hasRoom db then some ⟨db.accounts, db.transactions ++ [t]⟩
  else none

/-- Seeding done by `initDB` (lines 41-44) on the content found in the file:
user_a gets 100 and user_b gets 0 unless their rows already exist. -/
def initDB (db : DB) : DB :=
  insertOrIgnoreAccount "user_b" 0 (insertOrIgnoreAccount "user_a" 100 db)

/-- Content of a database file that has just been created: both tables empty. -/
def emptyDB : DB := ⟨[], []⟩

/-- The store after `initDB` ran on a new file. -/
def seededDB : DB := initDB emptyDB

/-! ## Storage failures -/

/-- What `tx.Commit()` does: it succeeds, or it returns an error with nothing
made durable, or it returns an error although the unit became durable. -/
inductive CommitResult where
  | ok
  | errAbsent
  | errDurable
  deriving DecidableEq, Repr

/-- The storage errors injected into one call: for each database call of the
handler, whether it returns an error that does not come from the data. -/
structure Faults where
  queryErr : Bool
  beginErr : Bool
  debitErr : Bool
  creditErr : Bool
  insertErr : Bool
  commit : CommitResult
  deriving DecidableEq, Repr

/-- No storage operation fails. -/
def noFaults : Faults := ⟨false, false, false, false, false, CommitResult.ok⟩

/-! ## The handler -/

/-- What the handler wrote to the `http.ResponseWriter`. -/
structure Response where
  status : Nat
  body : String
  deriving DecidableEq, Repr

/-- `http.Error(w, msg, code)`: status `code`, body `msg` and a newline. -/
def httpError (msg : String) (code : Nat) : Response :=
  ⟨code, msg ++ "\n"⟩

/-- Lines 50-53. -/
def missingKeyResponse : Response := httpError "Missing Idempotency-Key header" 400

/-- Lines 61-62. -/
def replayResponse : Response := ⟨200, "Transaction already processed (Cached Response)"⟩

/-- Line 69. -/
def beginFailedResponse : Response := httpError "Server error" 500

/-- Line 97. -/
def commitFailedResponse : Response := httpError "Commit failed" 500

/-- Lines 101-102. -/
def successResponse : Response := ⟨200, "Payment Successful"⟩

/-- The three statements run inside the transaction. -/
inductive Stmt where
  | debit
  | credit
  | insert
  deriving DecidableEq, Repr

/-- One database call made by the handler, with whether it returned `nil`. -/
inductive Event where
  | query (found : Bool)
  | begin (ok : Bool)
  | exec (s : Stmt) (ok : Bool)
  | rollback
  | commit (ok : Bool)
  deriving DecidableEq, Repr

/-- Result of one call of the handler: the response written (`none` when the
handler returned without writing; net/http then sends an empty 200), the
committed store afterwards and the database calls made, in order. -/
structure Result where
  response : Option Response
  db : DB
  trace : List Event
  deriving DecidableEq, Repr

/-- Line 57, `DB.QueryRow(SELECT ... WHERE idempotency_key = ?).Scan(..)`:
`true` when `err == nil`, that is when the query ran and found a row. -/
def queryRow (f : Faults) (db : DB) (key : String) : Bool :=
  !f.queryErr && hasKey db key

/-- An open transaction (the `*sql.Tx` of line 67): the committed store, which
no statement of the transaction touches, and the working copy the statements
of the transaction act on. -/
structure Tx where
  committed : DB
  work : DB
  deriving DecidableEq, Repr

/-- Line 67, `DB.Begin()` when it succeeds: the working copy starts as the
committed store. -/
def DB.begin (db : DB) : Tx := ⟨db, db⟩

/-- `tx.Rollback()`: the working copy is dropped.  The handler ignores the
error this call may return; a transaction that was not committed leaves the
committed store as it was. -/
def Tx.rollback (tx : Tx) : DB := tx.committed

/-- Line 95, `tx.Commit()`: the committed store afterwards.  The working copy
becomes the committed store when the commit succeeds, and also when the error
is reported although the unit was made durable. -/
def Tx.commit (tx : Tx) : CommitResult → DB
  | CommitResult.ok => tx.work
  | CommitResult.errAbsent => tx.committed
  | CommitResult.errDurable => tx.work

/-- Line 75: the debit statement on the working copy of the transaction;
`none` stands for a non-nil error. -/
def execDebit (f : Faults) (tx : Tx) : Option Tx :=
  if f.debitErr then none else some ⟨tx.committed, updateBalance "user_a" (-10) tx.work⟩

/-- Line 81: the credit statement. -/
def execCredit (f : Faults) (tx : Tx) : Option Tx :=
  if f.creditErr then none else some ⟨tx.committed, updateBalance "user_b" 10 tx.work⟩

/-- Line 88: the ledger insert; it fails on a storage error, when the primary
key rejects the row and when the database is full. -/
def execInsert (f : Faults) (key : String) (tx : Tx) : Option Tx :=
  if f.insertErr then none
  else (insertTransaction ⟨key, "user_a", "user_b", 10⟩ tx.work).map
    (fun w => ⟨tx.committed, w⟩)

/-- Lines 66-103, the part of the handler after the lookup: begin, debit,
credit, insert, commit.  The trace starts with the lookup that missed. -/
def transact (f : Faults) (idempotencyKey : String) (db : DB) : Result :=
  if f.beginErr then
    ⟨some beginFailedResponse, db, [Event.query false, Event.begin false]⟩
  else
    let tx := db.begin
    match execDebit f tx with
    | none =>
      ⟨none, tx.rollback, [Event.query false, Event.begin true,
        Event.exec Stmt.debit false, Event.rollback]⟩
    | some tx1 =>
      match execCredit f tx1 with
      | none =>
        ⟨none, tx1.rollback, [Event.query false, Event.begin true,
          Event.exec Stmt.debit true, Event.exec Stmt.credit false, Event.rollback]⟩
      | some tx2 =>
        match execInsert f idempotencyKey tx2 with
        | none =>
          ⟨none, tx2.rollback, [Event.query false, Event.begin true,
            Event.exec Stmt.debit true, Event.exec Stmt.credit true,
            Event.exec Stmt.insert false, Event.rollback]⟩
        | some tx3 =>
          match f.commit with
          | CommitResult.ok =>
            ⟨some successResponse, tx3.commit CommitResult.ok, [Event.query false,
              Event.begin true, Event.exec Stmt.debit true, Event.exec Stmt.credit true,
              Event.exec Stmt.insert true, Event.commit true]⟩
          | r =>
            ⟨some commitFailedResponse, tx3.commit r, [Event.query false,
              Event.begin true, Event.exec Stmt.debit true, Event.exec Stmt.credit true,
              Event.exec Stmt.insert true, Event.commit false]⟩

/-- Lines 47-103.  `db` is the committed store when the call starts; the
result carries the committed store when the call returns. -/
def paymentHandler (f : Faults) (idempotencyKey : String) (db : DB) : Result :=
  if idempotencyKey = "" then
    ⟨some missingKeyResponse, db, []⟩
  else if queryRow f db idempotencyKey then
    ⟨some replayResponse, db, [Event.query true]⟩
  else
    transact f idempotencyKey db

/-- Sequential calls: each call is a pair (faults, header value); the responses
are collected in order and the store is threaded through. -/
def serve : List (Faults × String) → DB → List (Option Response) × DB
  | [], db => ([], db)
  | (f, k) :: rest, db =>
    let r := paymentHandler f k db
    let out := serve rest r.db
    (r.response :: out.1, out.2)

/-! ## Concurrent calls -/

/-- Where a call in flight stands: before line 57, between the lookup that
missed and line 67, or returned, with what it wrote and the database calls it
made. -/
inductive CallState where
  | start
  | lookedUp
  | done (response : Option Response) (trace : List Event)
  deriving DecidableEq, Repr

/-- One step of one call on the shared store, without storage failures: the
header check and the lookup of lines 49-64, or the whole transaction of lines
66-103.  A call that has returned does nothing. -/
def stepCall (key : String) (c : CallState) (db : DB) : CallState × DB :=
  match c with
  | CallState.start =>
    if key = "" then (CallState.done (some missingKeyResponse) [], db)
    else if queryRow noFaults db key then
      (CallState.done (some replayResponse) [Event.query true], db)
    else (CallState.lookedUp, db)
  | CallState.lookedUp =>
    (CallState.done (transact noFaults key db).response (transact noFaults key db).trace,
      (transact noFaults key db).db)
  | CallState.done r t => (CallState.done r t, db)

/-- The call at position `i` of the list takes its next step. -/
def stepAt (key : String) : Nat → List CallState → DB → List CallState × DB
  | _, [], db => ([], db)
  | 0, c :: cs, db => ((stepCall key c db).1 :: cs, (stepCall key c db).2)
  | i + 1, c :: cs, db => (c :: (stepAt key i cs db).1, (stepAt key i cs db).2)

/-- An interleaving is the list of the positions of the calls that step, in
order; transactions run one at a time, lookups anywhere between them. -/
def runSchedule (key : String) : List Nat → List CallState → DB → List CallState × DB
  | [], cs, db => (cs, db)
  | i :: rest, cs, db =>
    runSchedule key rest (stepAt key i cs db).1 (stepAt key i cs db).2

/-- Has the call returned? -/
def CallState.returned : CallState → Bool
  | CallState.done _ _ => true
  | _ => false

/-- Database calls of a call that commits. -/
def committedTrace : List Event :=
  [Event.query false, Event.begin true, Event.exec Stmt.debit true,
    Event.exec Stmt.credit true, Event.exec Stmt.insert true, Event.commit true]

/-- Database calls of a call whose insert is rejected and that rolls back. -/
def insertRejectedTrace : List Event :=
  [Event.query false, Event.begin true, Event.exec Stmt.debit true,
    Event.exec Stmt.credit true, Event.exec Stmt.insert false, Event.rollback]

/-- A call that committed and answered with the success outcome. -/
def executedCall : CallState := CallState.done (some successResponse) committedTrace

/-- A call answered by the fast path. -/
def replayedCall : CallState := CallState.done (some replayResponse) [Event.query true]

/-! ## Stores and predicates used in the statements -/

/-- The transaction of a call after the debit and the credit ran. -/
def updated (db : DB) : Tx :=
  ⟨db, updateBalance "user_b" 10 (updateBalance "user_a" (-10) db)⟩

/-- The store a committed transfer under key `k` leaves behind: the debit and
the credit applied, one ledger row appended. -/
def transferred (k : String) (db : DB) : DB :=
  ⟨(updateBalance "user_b" 10 (updateBalance "user_a" (-10) db)).accounts,
    db.transactions ++ [⟨k, "user_a", "user_b", 10⟩]⟩

/-- A store whose accounts table holds a row for user_b only. -/
def onlyUserB : DB := ⟨[⟨"user_b", Value.int 0⟩], []⟩

/-- A store whose accounts table holds a row for user_a only. -/
def onlyUserA : DB := ⟨[⟨"user_a", Value.int 100⟩], []⟩

/-- A store in which user_b holds the largest INTEGER. -/
def richUserB : DB :=
  ⟨[⟨"user_a", Value.int 100⟩, ⟨"user_b", Value.int 9223372036854775807⟩], []⟩

/-- A store in which user_a holds the smallest INTEGER. -/
def poorUserA : DB :=
  ⟨[⟨"user_a", Value.int (-9223372036854775808)⟩, ⟨"user_b", Value.int 0⟩], []⟩

/-- The ledger reconciles with the balances of the two seeded accounts: the
accounts table holds exactly the rows of user_a and user_b, INTEGER cells with
100 minus and 0 plus ten times the number of ledger rows; the ledger is within
the size of a database file; no two ledger rows share a key; every ledger row
is a transfer of 10 from user_a to user_b. -/
def Reconciled (db : DB) : Prop :=
  db.accounts = [⟨"user_a", Value.int (100 - 10 * (db.transactions.length : Int))⟩,
      ⟨"user_b", Value.int (10 * (db.transactions.length : Int))⟩] ∧
    db.transactions.length ≤ maxLedgerRows ∧
    (db.transactions.map Transaction.idempotency_key).Nodup ∧
    ∀ t ∈ db.transactions, t.from_user = "user_a" ∧ t.to_user = "user_b" ∧ t.amount = 10

/-- What holds of concurrent calls with key `k` started on the store `db0` at
every point of an interleaving: either nothing is committed and no call has
returned, or the transfer is committed once, exactly one call committed and
answered with the success outcome, and every other call is still under way,
was answered by the fast path, or was rolled back at its rejected insert. -/
def RaceInv (k : String) (db0 : DB) (cs : List CallState) (db : DB) : Prop :=
  (db = db0 ∧ ∀ c ∈ cs, c = CallState.start ∨ c = CallState.lookedUp) ∨
    (db = transferred k db0 ∧ cs.count executedCall = 1 ∧
      ∀ c ∈ cs, c = CallState.start ∨ c = CallState.lookedUp ∨ c = executedCall ∨
        c = replayedCall ∨ c = CallState.done none insertRejectedTrace)

/-- The paths through the handler, each with the result it returns. -/
inductive Path (f : Faults) (k : String) (db : DB) : Result → Prop where
  | missing : k = "" → Path f k db ⟨some missingKeyResponse, db, []⟩
  | replay : k ≠ "" → queryRow f db k = true →
      Path f k db ⟨some replayResponse, db, [Event.query true]⟩
  | beginFailed : k ≠ "" → queryRow f db k = false → f.beginErr = true →
      Path f k db ⟨some beginFailedResponse, db, [Event.query false, Event.begin false]⟩
  | debitFailed : k ≠ "" → queryRow f db k = false → f.beginErr = false →
      f.debitErr = true →
      Path f k db ⟨none, db, [Event.query false, Event.begin true,
        Event.exec Stmt.debit false, Event.rollback]⟩
  | creditFailed : k ≠ "" → queryRow f db k = false → f.beginErr = false →
      f.debitErr = false → f.creditErr = true →
      Path f k db ⟨none, db, [Event.query false, Event.begin true,
        Event.exec Stmt.debit true, Event.exec Stmt.credit false, Event.rollback]⟩
  | insertFailed : k ≠ "" → queryRow f db k = false → f.beginErr = false →
      f.debitErr = false → f.creditErr = false →
      (f.insertErr = true ∨ hasKey db k = true ∨ hasRoom db = false) →
      Path f k db ⟨none, db, [Event.query false, Event.begin true,
        Event.exec Stmt.debit true, Event.exec Stmt.credit true,
        Event.exec Stmt.insert false, Event.rollback]⟩
  | committed : k ≠ "" → queryRow f db k = false → f.beginErr = false →
      f.debitErr = false → f.creditErr = false → f.insertErr = false →
      hasKey db k = false → hasRoom db = true → f.commit = CommitResult.ok →
      Path f k db ⟨some successResponse, transferred k db, [Event.query false,
        Event.begin true, Event.exec Stmt.debit true, Event.exec Stmt.credit true,
        Event.exec Stmt.insert true, Event.commit true]⟩
  | commitAbsent : k ≠ "" → queryRow f db k = false → f.beginErr = false →
      f.debitErr = false → f.creditErr = false → f.insertErr = false →
      hasKey db k = false → hasRoom db = true → f.commit = CommitResult.errAbsent →
      Path f k db ⟨some commitFailedResponse, db, [Event.query false,
        Event.begin true, Event.exec Stmt.debit true, Event.exec Stmt.credit true,
        Event.exec Stmt.insert true, Event.commit false]⟩
  | commitDurable : k ≠ "" → queryRow f db k = false → f.beginErr = false →
      f.debitErr = false → f.creditErr = false → f.insertErr = false →
      hasKey db k = false → hasRoom db = true → f.commit = CommitResult.errDurable →
      Path f k db ⟨some commitFailedResponse, transferred k db, [Event.query false,
        Event.begin true, Event.exec Stmt.debit true, Event.exec Stmt.credit true,
        Event.exec Stmt.insert true, Event.commit false]⟩

/-! ## Basic facts about the handler -/

theorem updateBalance_transactions (id : String) (d : Int) (db : DB) :
    (updateBalance id d db).transactions = db.transactions := rfl

theorem hasKey_updateBalance (id : String) (d : Int) (db : DB) (k : String) :
    hasKey (updateBalance id d db) k = hasKey db k := rfl

theorem hasRoom_updateBalance (id : String) (d : Int) (db : DB) :
    hasRoom (updateBalance id d db) = hasRoom db := rfl

/-- The fast path: a lookup that finds the key ends the call at line 63. -/
theorem handler_replay (f : Faults) (k : String) (db : DB) (hk : k ≠ "")
    (hq : queryRow f db k = true) :
    paymentHandler f k db = ⟨some replayResponse, db, [Event.query true]⟩ := by
  simp [paymentHandler, hk, hq]

/-- A missing header value ends the call at line 52. -/
theorem handler_missing (f : Faults) (db : DB) :
    paymentHandler f "" db = ⟨some missingKeyResponse, db, []⟩ := by
  simp [paymentHandler]

/-- A lookup that misses hands over to the transaction of lines 66-103. -/
theorem handler_transact (f : Faults) (k : String) (db : DB) (hk : k ≠ "")
    (hq : queryRow f db k = false) : paymentHandler f k db = transact f k db := by
  simp [paymentHandler, hk, hq]

theorem execDebit_ok (f : Faults) (db : DB) (hd : f.debitErr = false) :
    execDebit f db.begin = some ⟨db, updateBalance "user_a" (-10) db⟩ := by
  simp [execDebit, hd, DB.begin]

theorem execCredit_ok (f : Faults) (db : DB) (hc : f.creditErr = false) :
    execCredit f ⟨db, updateBalance "user_a" (-10) db⟩ = some (updated db) := by
  simp [execCredit, hc, updated]

/-- The insert of the handler on the working copy of a fresh key. -/
theorem execInsert_fresh (f : Faults) (k : String) (db : DB) (hi : f.insertErr = false)
    (hk : hasKey db k = false) (hr : hasRoom db = true) :
    execInsert f k (updated db) = some ⟨db, transferred k db⟩ := by
  simp [execInsert, hi, insertTransaction, updated, hasKey_updateBalance, hk, transferred,
    updateBalance_transactions, hasRoom_updateBalance, hr]

/-- The insert of the handler on the working copy of a key that is present. -/
theorem execInsert_dup (f : Faults) (k : String) (db : DB) (hk : hasKey db k = true) :
    execInsert f k (updated db) = none := by
  simp [execInsert, insertTransaction, updated, hasKey_updateBalance, hk]

/-- The insert of the handler on a full database. -/
theorem execInsert_full (f : Faults) (k : String) (db : DB) (hr : hasRoom db = false) :
    execInsert f k (updated db) = none := by
  simp [execInsert, insertTransaction, updated, hasRoom_updateBalance, hr]

/-- The begin of the transaction fails: line 70. -/
theorem transact_begin_failed (f : Faults) (k : String) (db : DB) (hb : f.beginErr = true) :
    transact f k db
      = ⟨some beginFailedResponse, db, [Event.query false, Event.begin false]⟩ := by
  simp [transact, hb]

/-- The debit fails: line 78. -/
theorem transact_debit_failed (f : Faults) (k : String) (db : DB)
    (hb : f.beginErr = false) (hd : f.debitErr = true) :
    transact f k db
      = ⟨none, db, [Event.query false, Event.begin true, Event.exec Stmt.debit false,
          Event.rollback]⟩ := by
  simp [transact, hb, execDebit, hd, Tx.rollback, DB.begin]

/-- The credit fails: line 84. -/
theorem transact_credit_failed (f : Faults) (k : String) (db : DB)
    (hb : f.beginErr = false) (hd : f.debitErr = false) (hc : f.creditErr = true) :
    transact f k db
      = ⟨none, db, [Event.query false, Event.begin true, Event.exec Stmt.debit true,
          Event.exec Stmt.credit false, Event.rollback]⟩ := by
  simp [transact, hb, execDebit_ok f db hd, execCredit, hc, Tx.rollback]

/-- The insert fails, by a storage error, by the primary key or because the
database is full: line 91. -/
theorem transact_insert_failed (f : Faults) (k : String) (db : DB)
    (hb : f.beginErr = false) (hd : f.debitErr = false) (hc : f.creditErr = false)
    (hi : f.insertErr = true ∨ hasKey db k = true ∨ hasRoom db = false) :
    transact f k db
      = ⟨none, db, [Event.query false, Event.begin true, Event.exec Stmt.debit true,
          Event.exec Stmt.credit true, Event.exec Stmt.insert false, Event.rollback]⟩ := by
  have h : execInsert f k (updated db) = none := by
    rcases hi with hi | hi | hi
    · simp [execInsert, hi]
    · exact execInsert_dup f k db hi
    · exact execInsert_full f k db hi
  simp only [transact, hb, execDebit_ok f db hd, execCredit_ok f db hc, h,
    if_false, Bool.false_eq_true]
  rfl

/-- All three statements ran: the call ends at line 98 or at line 102. -/
theorem transact_committing (f : Faults) (k : String) (db : DB)
    (hb : f.beginErr = false) (hd : f.debitErr = false)
    (hc : f.creditErr = false) (hi : f.insertErr = false) (hn : hasKey db k = false)
    (hr : hasRoom db = true) :
    transact f k db =
      match f.commit with
      | CommitResult.ok =>
        ⟨some successResponse, transferred k db, [Event.query false, Event.begin true,
          Event.exec Stmt.debit true, Event.exec Stmt.credit true,
          Event.exec Stmt.insert true, Event.commit true]⟩
      | CommitResult.errAbsent =>
        ⟨some commitFailedResponse, db, [Event.query false, Event.begin true,
          Event.exec Stmt.debit true, Event.exec Stmt.credit true,
          Event.exec Stmt.insert true, Event.commit false]⟩
      | CommitResult.errDurable =>
        ⟨some commitFailedResponse, transferred k db, [Event.query false, Event.begin true,
          Event.exec Stmt.debit true, Event.exec Stmt.credit true,
          Event.exec Stmt.insert true, Event.commit false]⟩ := by
  simp only [transact, hb, execDebit_ok f db hd, execCredit_ok f db hc,
    execInsert_fresh f k db hi hn hr, if_false, Bool.false_eq_true]
  cases f.commit <;> rfl

/-- Every call follows one of the paths. -/
theorem handler_path (f : Faults) (k : String) (db : DB) :
    Path f k db (paymentHandler f k db) := by
  by_cases hk : k = ""
  · subst hk; rw [handler_missing]; exact Path.missing rfl
  cases hq : queryRow f db k
  swap
  · rw [handler_replay f k db hk hq]; exact Path.replay hk hq
  rw [handler_transact f k db hk hq]
  cases hb : f.beginErr
  swap
  · rw [transact_begin_failed f k db hb]; exact Path.beginFailed hk hq hb
  cases hd : f.debitErr
  swap
  · rw [transact_debit_failed f k db hb hd]; exact Path.debitFailed hk hq hb hd
  cases hc : f.creditErr
  swap
  · rw [transact_credit_failed f k db hb hd hc]
    exact Path.creditFailed hk hq hb hd hc
  cases hi : f.insertErr
  swap
  · rw [transact_insert_failed f k db hb hd hc (Or.inl hi)]
    exact Path.insertFailed hk hq hb hd hc (Or.inl hi)
  cases hn : hasKey db k
  swap
  · rw [transact_insert_failed f k db hb hd hc (Or.inr (Or.inl hn))]
    exact Path.insertFailed hk hq hb hd hc (Or.inr (Or.inl hn))
  cases hr : hasRoom db
  · rw [transact_insert_failed f k db hb hd hc (Or.inr (Or.inr hr))]
    exact Path.insertFailed hk hq hb hd hc (Or.inr (Or.inr hr))
  rw [transact_committing f k db hb hd hc hi hn hr]
  cases hm : f.commit
  · exact Path.committed hk hq hb hd hc hi hn hr hm
  · exact Path.commitAbsent hk hq hb hd hc hi hn hr hm
  · exact Path.commitDurable hk hq hb hd hc hi hn hr hm

/-- Every call leaves the committed store as it was or in the state
`transferred`; the latter only for a non-empty key that had no ledger row, on
a database with room for the row. -/
theorem handler_db_cases (f : Faults) (k : String) (db : DB) :
    (paymentHandler f k db).db = db ∨
      ((paymentHandler f k db).db = transferred k db ∧ k ≠ "" ∧ hasKey db k = false ∧
        hasRoom db = true) := by
  have hp := handler_path f k db
  generalize paymentHandler f k db = r at hp ⊢
  cases hp <;> simp_all

/-! ## The fast path -/

/-- C2: for every store, every fault plan and every non-empty key whose ledger
lookup finds a record, the handler answers 200 with the replay body, makes no
database call besides the lookup (so it opens no transaction), and leaves the
committed store, that is every account row and every ledger row, as it was. -/
theorem replay_touches_nothing (f : Faults) (k : String) (db : DB) (hk : k ≠ "")
    (hq : queryRow f db k = true) :
    (paymentHandler f k db).response
        = some ⟨200, "Transaction already processed (Cached Response)"⟩ ∧
      (paymentHandler f k db).trace = [Event.query true] ∧
      (∀ ok, Event.begin ok ∉ (paymentHandler f k db).trace) ∧
      (paymentHandler f k db).db = db := by
  rw [handler_replay f k db hk hq]
  simp [replayResponse]

/-- Witness of C2: key k1 on the store left by one committed transfer with key k1. -/
theorem replay_touches_nothing_witness :
    ("k1" : String) ≠ "" ∧ queryRow noFaults (transferred "k1" seededDB) "k1" = true ∧
      (paymentHandler noFaults "k1" (transferred "k1" seededDB)).response
        = some ⟨200, "Transaction already processed (Cached Response)"⟩ ∧
      (paymentHandler noFaults "k1" (transferred "k1" seededDB)).db
        = transferred "k1" seededDB :=
  have h := replay_touches_nothing noFaults "k1" (transferred "k1" seededDB)
    (by decide) (by decide)
  ⟨by decide, by decide, h.1, h.2.2.2⟩

/-! ## Failures inside the transaction -/

/-- C4: whenever the debit, the credit or the ledger insert returns an error,
the last database call of the handler is the rollback, no commit is attempted
and the committed store equals the store before the call; the statement that
failed may be any of the three, so the updates applied before it are undone. -/
theorem rollback_restores_store (f : Faults) (k : String) (db : DB) (s : Stmt)
    (h : Event.exec s false ∈ (paymentHandler f k db).trace) :
    (paymentHandler f k db).db = db ∧
      (paymentHandler f k db).trace.getLast? = some Event.rollback ∧
      (∀ ok, Event.commit ok ∉ (paymentHandler f k db).trace) := by
  have hp := handler_path f k db
  revert h
  generalize paymentHandler f k db = r at hp ⊢
  intro h
  cases hp <;> simp at h ⊢

/-- Witness of C4: on the seeded store the insert of a call with key k1 fails after
both updates changed the working copy, and the committed store stays seeded. -/
theorem rollback_restores_store_witness :
    Event.exec Stmt.insert false ∈
        (paymentHandler ⟨false, false, false, false, true, CommitResult.ok⟩ "k1" seededDB).trace ∧
      (updated seededDB).work ≠ seededDB ∧ (updated seededDB).rollback = seededDB ∧
      (paymentHandler ⟨false, false, false, false, true, CommitResult.ok⟩ "k1" seededDB).db
        = seededDB :=
  ⟨by decide, by decide, by decide,
    (rollback_restores_store ⟨false, false, false, false, true, CommitResult.ok⟩ "k1" seededDB
      Stmt.insert (by decide)).1⟩

/-- C10: when the ledger already holds a row with key `k`, a call with key `k`
leaves the committed store unchanged under every fault plan, whatever the
lookup answers; when the lookup fails and begin, debit and credit succeed, the
call runs both updates, the insert is rejected and the unit is rolled back. -/
theorem executed_key_never_reapplied (f : Faults) (k : String) (db : DB)
    (h : hasKey db k = true) :
    (paymentHandler f k db).db = db ∧
      (k ≠ "" → f.queryErr = true → f.beginErr = false → f.debitErr = false →
        f.creditErr = false →
        (paymentHandler f k db).trace
          = [Event.query false, Event.begin true, Event.exec Stmt.debit true,
              Event.exec Stmt.credit true, Event.exec Stmt.insert false, Event.rollback]) := by
  constructor
  · rcases handler_db_cases f k db with h1 | ⟨_, _, h3, _⟩
    · exact h1
    · rw [h] at h3; cases h3
  · intro hk hq hb hd hc
    have hq2 : queryRow f db k = false := by simp [queryRow, hq]
    rw [handler_transact f k db hk hq2,
      transact_insert_failed f k db hb hd hc (Or.inr (Or.inl h))]

/-- Witness of C10: key k1 is in the ledger and the lookup of the call fails. -/
theorem executed_key_never_reapplied_witness :
    hasKey (transferred "k1" seededDB) "k1" = true ∧
      (paymentHandler ⟨true, false, false, false, false, CommitResult.ok⟩ "k1"
        (transferred "k1" seededDB)).db = transferred "k1" seededDB ∧
      (paymentHandler ⟨true, false, false, false, false, CommitResult.ok⟩ "k1"
        (transferred "k1" seededDB)).trace
          = [Event.query false, Event.begin true, Event.exec Stmt.debit true,
              Event.exec Stmt.credit true, Event.exec Stmt.insert false, Event.rollback] :=
  ⟨by decide,
    (executed_key_never_reapplied ⟨true, false, false, false, false, CommitResult.ok⟩ "k1"
      (transferred "k1" seededDB) (by decide)).1,
    (executed_key_never_reapplied ⟨true, false, false, false, false, CommitResult.ok⟩ "k1"
      (transferred "k1" seededDB) (by decide)).2 (by decide) rfl rfl rfl rfl⟩

/-- C7: on the seeded store, a call with key k1 whose debit returns an error is
rolled back and returns at line 78 without having written any response. -/
theorem debit_failure_writes_no_response :
    paymentHandler ⟨false, false, true, false, false, CommitResult.ok⟩ "k1" seededDB
      = ⟨none, seededDB, [Event.query false, Event.begin true,
          Event.exec Stmt.debit false, Event.rollback]⟩ := by
  decide

/-- C6, as stated, fails: with key k1 already in the ledger, a call that gets
past the lookup (the lookup returned an error) has its insert rejected by the
primary key and does not answer with the replay outcome, which is what the
fast path answers for the same key on the same store. -/
theorem duplicate_key_not_replayed :
    hasKey (transferred "k1" seededDB) "k1" = true ∧
      Event.exec Stmt.insert false ∈
        (paymentHandler ⟨true, false, false, false, false, CommitResult.ok⟩ "k1"
          (transferred "k1" seededDB)).trace ∧
      (paymentHandler noFaults "k1" (transferred "k1" seededDB)).response
        = some replayResponse ∧
      (paymentHandler ⟨true, false, false, false, false, CommitResult.ok⟩ "k1"
          (transferred "k1" seededDB)).response ≠ some replayResponse := by
  decide

/-- C6, amended: for every call that gets past the lookup, whose begin, debit
and credit succeed and whose key already has a ledger row, the insert is
rejected on the working copy that holds both balance updates, the last
database call is the rollback, the committed store (both balances included)
equals the store before the call, and the response is neither the replay
outcome nor the success outcome. -/
theorem duplicate_key_rolls_back (f : Faults) (k : String) (db : DB) (hk : k ≠ "")
    (hq : queryRow f db k = false) (hb : f.beginErr = false) (hd : f.debitErr = false)
    (hc : f.creditErr = false) (hdup : hasKey db k = true) :
    execInsert f k (updated db) = none ∧
      (paymentHandler f k db).trace
        = [Event.query false, Event.begin true, Event.exec Stmt.debit true,
            Event.exec Stmt.credit true, Event.exec Stmt.insert false, Event.rollback] ∧
      (paymentHandler f k db).db = db ∧
      (paymentHandler f k db).response ≠ some replayResponse ∧
      (paymentHandler f k db).response ≠ some successResponse := by
  rw [handler_transact f k db hk hq,
    transact_insert_failed f k db hb hd hc (Or.inr (Or.inl hdup))]
  exact ⟨execInsert_dup f k db hdup, rfl, rfl, by simp, by simp⟩

/-- Witness of the amended C6: key k1 is in the ledger and the lookup of the call
fails, so the call reaches the insert. -/
theorem duplicate_key_rolls_back_witness :
    hasKey (transferred "k1" seededDB) "k1" = true ∧
      (paymentHandler ⟨true, false, false, false, false, CommitResult.ok⟩ "k1"
        (transferred "k1" seededDB)).db = transferred "k1" seededDB :=
  ⟨by decide,
    (duplicate_key_rolls_back ⟨true, false, false, false, false, CommitResult.ok⟩ "k1"
      (transferred "k1" seededDB) (by decide) (by decide) rfl rfl rfl (by decide)).2.2.1⟩

/-! ## Balance updates on the accounts table -/

theorem Value.add_of_fits (v : Value) (d : Int) (h : v.fits d = true) :
    v.add d = Value.int (v.num + d) := by
  cases v with
  | int i =>
    simp only [Value.fits] at h
    simp [Value.add, h, Value.num]
  | real x => simp [Value.fits] at h

theorem Value.add_int (i d : Int) (h : inInt64 (i + d) = true) :
    (Value.int i).add d = Value.int (i + d) := by
  simp [Value.add, h]

theorem hasAccount_eq_true_iff (db : DB) (id : String) :
    hasAccount db id = true ↔ id ∈ db.accounts.map Account.id := by
  simp only [hasAccount, List.any_eq_true, List.mem_map, beq_iff_eq]

theorem updateBalance_absent (id : String) (d : Int) (db : DB)
    (h : hasAccount db id = false) : updateBalance id d db = db := by
  have hne : ∀ r ∈ db.accounts, r.id ≠ id := by
    intro r hr he
    have : hasAccount db id = true :=
      (hasAccount_eq_true_iff db id).2 (List.mem_map.2 ⟨r, hr, he⟩)
    rw [h] at this; cases this
  cases db with
  | mk rows ts =>
    simp only [updateBalance, DB.mk.injEq, and_true]
    calc rows.map (fun r => if r.id = id then (⟨r.id, r.balance.add d⟩ : Account) else r)
        = rows.map (fun r => r) := by
          apply List.map_congr_left
          intro r hr
          simp [hne r hr]
      _ = rows := List.map_id _

theorem accounts_ids_updateBalance (id : String) (d : Int) (db : DB) :
    (updateBalance id d db).accounts.map Account.id = db.accounts.map Account.id := by
  simp only [updateBalance, List.map_map]
  apply List.map_congr_left
  intro r _
  by_cases h : r.id = id <;> simp [h]

theorem hasAccount_updateBalance (id : String) (d : Int) (db : DB) (id2 : String) :
    hasAccount (updateBalance id d db) id2 = hasAccount db id2 := by
  rw [Bool.eq_iff_iff, hasAccount_eq_true_iff, hasAccount_eq_true_iff,
    accounts_ids_updateBalance]

theorem balance_updateBalance_same (id : String) (d : Int) (db : DB) :
    balance (updateBalance id d db) id = (balance db id).map (fun v => v.add d) := by
  cases db with
  | mk rows ts =>
    simp only [balance, updateBalance]
    induction rows with
    | nil => rfl
    | cons r rest ih =>
      by_cases h : r.id = id
      · have hb : (r.id == id) = true := by simp [h]
        have hb2 : (id == id) = true := by simp
        simp only [List.map_cons, List.find?_cons, h, if_true, hb2, Option.map_some']
      · have hb : (r.id == id) = false := by simp [h]
        simp only [List.map_cons, List.find?_cons, h, if_false, hb]
        exact ih

theorem balance_updateBalance_other (id : String) (d : Int) (db : DB) (id2 : String)
    (hne : id2 ≠ id) : balance (updateBalance id d db) id2 = balance db id2 := by
  cases db with
  | mk rows ts =>
    simp only [balance, updateBalance]
    induction rows with
    | nil => rfl
    | cons r rest ih =>
      by_cases h : r.id = id
      · have hb : (id == id2) = false := by simp [Ne.symm hne]
        simp only [List.map_cons, List.find?_cons, h, if_true, hb]
        exact ih
      · by_cases h3 : r.id = id2
        · have hb : (r.id == id2) = true := by simp [h3]
          simp only [List.map_cons, List.find?_cons, h, if_false, hb]
        · have hb : (r.id == id2) = false := by simp [h3]
          simp only [List.map_cons, List.find?_cons, h, if_false, hb]
          exact ih

/-- A cell found under an id is one of the cells `fits` speaks about. -/
theorem fits_of_balance (db : DB) (id : String) (d : Int) (v : Value)
    (hf : fits db id d = true) (hv : balance db id = some v) : v.fits d = true := by
  simp only [balance, Option.map_eq_some'] at hv
  obtain ⟨r, hr, rfl⟩ := hv
  have hmem : r ∈ db.accounts := List.mem_of_find?_eq_some hr
  have hid : (r.id == id) = true :=
    @List.find?_some _ (fun r : Account => r.id == id) r db.accounts hr
  have h := (List.all_eq_true.1 hf) r hmem
  simp only [beq_iff_eq] at hid
  simpa [hid] using h

theorem fits_updateBalance_other (id : String) (d : Int) (db : DB) (id2 : String) (d2 : Int)
    (hne : id2 ≠ id) : fits (updateBalance id d db) id2 d2 = fits db id2 d2 := by
  cases db with
  | mk rows ts =>
    simp only [fits, updateBalance]
    induction rows with
    | nil => rfl
    | cons r rest ih =>
      by_cases h : r.id = id
      · have hb : (id != id2) = true := by simp [Ne.symm hne]
        have hb2 : (r.id != id2) = true := by simp [h, Ne.symm hne]
        simp only [List.map_cons, List.all_cons, h, if_true, hb, hb2, Bool.true_or,
          Bool.true_and]
        exact ih
      · simp only [List.map_cons, List.all_cons, h, if_false]
        rw [ih]

theorem totalBalance_updateBalance (id : String) (d : Int) (db : DB)
    (hf : fits db id d = true) :
    totalBalance (updateBalance id d db)
      = totalBalance db + d * ((db.accounts.map Account.id).count id : Nat) := by
  cases db with
  | mk rows ts =>
    simp only [totalBalance, updateBalance]
    simp only [fits] at hf
    induction rows with
    | nil => simp
    | cons r rest ih =>
      simp only [List.all_cons, Bool.and_eq_true] at hf
      have ih2 := ih hf.2
      by_cases h : r.id = id
      · have hr : r.balance.fits d = true := by simpa [h] using hf.1
        have hnum : (r.balance.add d).num = r.balance.num + d := by
          rw [Value.add_of_fits r.balance d hr]; rfl
        simp only [List.map_cons, List.sum_cons, h, if_true, ih2, List.count_cons_self,
          hnum]
        push_cast
        ring
      · have h2 : (r.id == id) = false := by simp [h]
        simp only [List.map_cons, List.sum_cons, h, if_false, ih2, List.count_cons, h2]
        simp
        ring

theorem count_id_of_hasAccount (db : DB) (id : String) (hu : uniqueIds db) :
    (db.accounts.map Account.id).count id = if hasAccount db id then 1 else 0 := by
  by_cases h : hasAccount db id = true
  · rw [if_pos h]
    exact List.count_eq_one_of_mem hu ((hasAccount_eq_true_iff db id).1 h)
  · rw [if_neg h]
    exact List.count_eq_zero_of_not_mem (fun hm => h ((hasAccount_eq_true_iff db id).2 hm))

theorem totalBalance_transferred (k : String) (db : DB) (hu : uniqueIds db)
    (hfa : fits db "user_a" (-10) = true) (hfb : fits db "user_b" 10 = true) :
    totalBalance (transferred k db)
      = totalBalance db - (if hasAccount db "user_a" then 10 else 0)
          + (if hasAccount db "user_b" then 10 else 0) := by
  have h1 : totalBalance (transferred k db)
      = totalBalance (updateBalance "user_b" 10 (updateBalance "user_a" (-10) db)) := rfl
  have hu2 : uniqueIds (updateBalance "user_a" (-10) db) := by
    unfold uniqueIds
    rw [accounts_ids_updateBalance]; exact hu
  have hfb2 : fits (updateBalance "user_a" (-10) db) "user_b" 10 = true := by
    rw [fits_updateBalance_other _ _ _ _ _ (by decide)]; exact hfb
  rw [h1, totalBalance_updateBalance _ _ _ hfb2, totalBalance_updateBalance _ _ _ hfa,
    count_id_of_hasAccount _ _ hu2, count_id_of_hasAccount _ _ hu,
    hasAccount_updateBalance]
  generalize totalBalance db = t
  cases hasAccount db "user_a" <;> cases hasAccount db "user_b" <;>
    simp only [Bool.false_eq_true, if_true, if_false, Nat.cast_zero, Nat.cast_one] <;> omega

theorem balance_transferred_a (k : String) (db : DB) :
    balance (transferred k db) "user_a" = (balance db "user_a").map (fun v => v.add (-10)) := by
  have h1 : balance (transferred k db) "user_a"
      = balance (updateBalance "user_b" 10 (updateBalance "user_a" (-10) db)) "user_a" := rfl
  rw [h1, balance_updateBalance_other _ _ _ _ (by decide), balance_updateBalance_same]

theorem balance_transferred_b (k : String) (db : DB) :
    balance (transferred k db) "user_b" = (balance db "user_b").map (fun v => v.add 10) := by
  have h1 : balance (transferred k db) "user_b"
      = balance (updateBalance "user_b" 10 (updateBalance "user_a" (-10) db)) "user_b" := rfl
  rw [h1, balance_updateBalance_same, balance_updateBalance_other _ _ _ _ (by decide)]

theorem accounts_ids_transferred (k : String) (db : DB) :
    (transferred k db).accounts.map Account.id = db.accounts.map Account.id := by
  have h1 : (transferred k db).accounts
      = (updateBalance "user_b" 10 (updateBalance "user_a" (-10) db)).accounts := rfl
  rw [h1, accounts_ids_updateBalance, accounts_ids_updateBalance]

/-- A call that answers with the success outcome committed the transfer. -/
theorem handler_success (f : Faults) (k : String) (db : DB)
    (hs : (paymentHandler f k db).response = some successResponse) :
    (paymentHandler f k db).db = transferred k db ∧ k ≠ "" ∧ hasKey db k = false := by
  have hp := handler_path f k db
  revert hs
  generalize paymentHandler f k db = r at hp ⊢
  intro hs
  cases hp with
  | committed hk _ _ _ _ _ hn _ _ => exact ⟨rfl, hk, hn⟩
  | missing _ => exact absurd (Option.some.inj hs) (by decide)
  | replay _ _ => exact absurd (Option.some.inj hs) (by decide)
  | beginFailed _ _ _ => exact absurd (Option.some.inj hs) (by decide)
  | debitFailed _ _ _ _ => cases hs
  | creditFailed _ _ _ _ _ => cases hs
  | insertFailed _ _ _ _ _ _ => cases hs
  | commitAbsent _ _ _ _ _ _ _ _ _ => exact absurd (Option.some.inj hs) (by decide)
  | commitDurable _ _ _ _ _ _ _ _ _ => exact absurd (Option.some.inj hs) (by decide)

/-- The transaction of a fresh key without storage failure commits. -/
theorem transact_fresh (k : String) (db : DB) (hn : hasKey db k = false)
    (hr : hasRoom db = true) :
    transact noFaults k db
      = ⟨some successResponse, transferred k db, [Event.query false, Event.begin true,
          Event.exec Stmt.debit true, Event.exec Stmt.credit true,
          Event.exec Stmt.insert true, Event.commit true]⟩ := by
  rw [transact_committing noFaults k db rfl rfl rfl rfl hn hr]
  rfl

/-- A fresh non-empty key and no storage failure: the call commits. -/
theorem handler_fresh (k : String) (db : DB) (hk : k ≠ "") (hn : hasKey db k = false)
    (hr : hasRoom db = true) :
    paymentHandler noFaults k db
      = ⟨some successResponse, transferred k db, [Event.query false, Event.begin true,
          Event.exec Stmt.debit true, Event.exec Stmt.credit true,
          Event.exec Stmt.insert true, Event.commit true]⟩ := by
  have hq : queryRow noFaults db k = false := by simp [queryRow, hn]
  rw [handler_transact noFaults k db hk hq, transact_fresh k db hn hr]

/-! ## Conservation -/

/-- C3, as stated, fails, in two ways.  On a store that holds a row for user_b
and none for user_a, a call with key k1 and no storage failure ends in the
success outcome and the total balance goes from 0 to 10.  On a store with both
rows in which user_b holds the largest INTEGER, the call ends in the success
outcome, the cell of user_b becomes the REAL 2^63 and the total changes. -/
theorem success_without_conservation :
    (uniqueIds onlyUserB ∧
      (paymentHandler noFaults "k1" onlyUserB).response = some successResponse ∧
      totalBalance onlyUserB = 0 ∧
      totalBalance (paymentHandler noFaults "k1" onlyUserB).db = 10 ∧
      totalBalance (paymentHandler noFaults "k1" onlyUserB).db ≠ totalBalance onlyUserB) ∧
    (uniqueIds richUserB ∧ hasAccount richUserB "user_a" = true ∧
      hasAccount richUserB "user_b" = true ∧
      (paymentHandler noFaults "k1" richUserB).response = some successResponse ∧
      balance (paymentHandler noFaults "k1" richUserB).db "user_b"
        = some (Value.real 9223372036854775808) ∧
      totalBalance (paymentHandler noFaults "k1" richUserB).db ≠ totalBalance richUserB) := by
  decide

/-- C3, amended: for every store with unique account ids, any ledger, in which
user_a and user_b both have a row or both have none, and in which the cell of
user_a and the cell of user_b are INTEGERs that stay within the signed 64-bit
range under the debit of 10 and the credit of 10, every call that ends in the
success outcome leaves the total balance over all accounts unchanged; when
both rows exist, user_a ends 10 lower, user_b 10 higher and their sum is
unchanged. -/
theorem success_conserves_total (f : Faults) (k : String) (db : DB) (hu : uniqueIds db)
    (hab : hasAccount db "user_a" = hasAccount db "user_b")
    (hfa : fits db "user_a" (-10) = true) (hfb : fits db "user_b" 10 = true)
    (hs : (paymentHandler f k db).response = some successResponse) :
    totalBalance (paymentHandler f k db).db = totalBalance db ∧
      (∀ a b, balance db "user_a" = some (Value.int a) →
        balance db "user_b" = some (Value.int b) →
        balance (paymentHandler f k db).db "user_a" = some (Value.int (a - 10)) ∧
          balance (paymentHandler f k db).db "user_b" = some (Value.int (b + 10)) ∧
          (a - 10) + (b + 10) = a + b) := by
  rw [(handler_success f k db hs).1]
  constructor
  · rw [totalBalance_transferred k db hu hfa hfb, hab]
    omega
  · intro a b ha hb
    have h1 := fits_of_balance db "user_a" (-10) _ hfa ha
    have h2 := fits_of_balance db "user_b" 10 _ hfb hb
    refine ⟨?_, ?_, by omega⟩
    · rw [balance_transferred_a, ha, Option.map_some', Value.add_of_fits _ _ h1]; rfl
    · rw [balance_transferred_b, hb, Option.map_some', Value.add_of_fits _ _ h2]; rfl

/-- Witness of the amended C3: the first call with key k1 on the seeded store. -/
theorem success_conserves_total_witness :
    uniqueIds seededDB ∧ hasAccount seededDB "user_a" = hasAccount seededDB "user_b" ∧
      fits seededDB "user_a" (-10) = true ∧ fits seededDB "user_b" 10 = true ∧
      (paymentHandler noFaults "k1" seededDB).response = some successResponse ∧
      totalBalance (paymentHandler noFaults "k1" seededDB).db = totalBalance seededDB ∧
      (balance (paymentHandler noFaults "k1" seededDB).db "user_a"
          = some (Value.int (100 - 10)) ∧
        balance (paymentHandler noFaults "k1" seededDB).db "user_b"
          = some (Value.int (0 + 10)) ∧
        (100 - 10) + (0 + 10) = (100 : Int) + 0) :=
  have h := success_conserves_total noFaults "k1" seededDB (by decide) (by decide)
    (by decide) (by decide) (by decide)
  ⟨by decide, by decide, by decide, by decide, by decide, h.1,
    h.2 100 0 (by decide) (by decide)⟩

/-! ## Accounts without a row -/

/-- C5, as stated, fails: on a store that holds a row for user_a and none for
user_b, a call with the fresh key k1 and no storage failure commits: it ends in
the success outcome, user_a goes from 100 to 90 and the ledger row is
inserted. -/
theorem missing_account_commits :
    hasAccount onlyUserA "user_b" = false ∧ hasKey onlyUserA "k1" = false ∧
      paymentHandler noFaults "k1" onlyUserA
        = ⟨some successResponse,
            ⟨[⟨"user_a", Value.int 90⟩], [⟨"k1", "user_a", "user_b", 10⟩]⟩,
            [Event.query false, Event.begin true, Event.exec Stmt.debit true,
              Event.exec Stmt.credit true, Event.exec Stmt.insert true,
              Event.commit true]⟩ := by
  decide

/-- C5, amended: where user_a or user_b has no row, the update for that
account matches no row, changes nothing and returns no error; a call with a
fresh non-empty key and no storage failure (the database has room for the
ledger row) then commits: it ends in the success outcome, the ledger row is
appended, the accounts table keeps exactly the ids it had, so the missing
account stays missing, and each of the two accounts that has a row whose cell
is an INTEGER that stays in the signed 64-bit range is adjusted by 10. -/
theorem missing_account_is_no_failure (k : String) (db : DB) (hk : k ≠ "")
    (hn : hasKey db k = false) (hr : hasRoom db = true)
    (hm : hasAccount db "user_a" = false ∨ hasAccount db "user_b" = false) :
    (hasAccount db "user_a" = false → execDebit noFaults db.begin = some db.begin) ∧
      (hasAccount db "user_b" = false →
        execCredit noFaults ⟨db, updateBalance "user_a" (-10) db⟩
          = some ⟨db, updateBalance "user_a" (-10) db⟩) ∧
      (paymentHandler noFaults k db).response = some successResponse ∧
      Event.commit true ∈ (paymentHandler noFaults k db).trace ∧
      (paymentHandler noFaults k db).db.transactions
        = db.transactions ++ [⟨k, "user_a", "user_b", 10⟩] ∧
      (paymentHandler noFaults k db).db.accounts.map Account.id
        = db.accounts.map Account.id ∧
      (hasAccount (paymentHandler noFaults k db).db "user_a" = false ∨
        hasAccount (paymentHandler noFaults k db).db "user_b" = false) ∧
      (∀ i, balance db "user_a" = some (Value.int i) → inInt64 (i - 10) = true →
        balance (paymentHandler noFaults k db).db "user_a" = some (Value.int (i - 10))) ∧
      (∀ i, balance db "user_b" = some (Value.int i) → inInt64 (i + 10) = true →
        balance (paymentHandler noFaults k db).db "user_b" = some (Value.int (i + 10))) := by
  rw [handler_fresh k db hk hn hr]
  have hids := accounts_ids_transferred k db
  refine ⟨?_, ?_, rfl, by simp, rfl, hids, ?_, ?_, ?_⟩
  · intro h
    simp [execDebit, noFaults, DB.begin, updateBalance_absent _ _ _ h]
  · intro h
    have h2 : hasAccount (updateBalance "user_a" (-10) db) "user_b" = false := by
      rw [hasAccount_updateBalance]; exact h
    simp [execCredit, noFaults, updateBalance_absent _ _ _ h2]
  · have e : ∀ id, hasAccount (transferred k db) id = hasAccount db id := by
      intro id
      rw [Bool.eq_iff_iff, hasAccount_eq_true_iff, hasAccount_eq_true_iff, hids]
    simpa only [e] using hm
  · intro i hi hin
    have hin2 : inInt64 (i + -10) = true := by simpa [sub_eq_add_neg] using hin
    rw [balance_transferred_a, hi, Option.map_some', Value.add_int i (-10) hin2]; rfl
  · intro i hi hin
    rw [balance_transferred_b, hi, Option.map_some', Value.add_int i 10 hin]

/-- Witness of the amended C5: key k1 on a store without a row for user_b. -/
theorem missing_account_is_no_failure_witness :
    ("k1" : String) ≠ "" ∧ hasKey onlyUserA "k1" = false ∧ hasRoom onlyUserA = true ∧
      hasAccount onlyUserA "user_b" = false ∧
      (paymentHandler noFaults "k1" onlyUserA).response = some successResponse ∧
      execCredit noFaults ⟨onlyUserA, updateBalance "user_a" (-10) onlyUserA⟩
          = some ⟨onlyUserA, updateBalance "user_a" (-10) onlyUserA⟩ ∧
      balance (paymentHandler noFaults "k1" onlyUserA).db "user_a"
          = some (Value.int (100 - 10)) :=
  have h := missing_account_is_no_failure "k1" onlyUserA (by decide) (by decide) (by decide)
    (Or.inr (by decide))
  ⟨by decide, by decide, by decide, by decide, h.2.2.1, h.2.1 (by decide),
    h.2.2.2.2.2.2.2.1 100 (by decide) (by decide)⟩

/-! ## Repeated calls with one key -/

theorem hasKey_transferred (k : String) (db : DB) : hasKey (transferred k db) k = true := by
  simp [hasKey, transferred]

theorem recordsFor_transferred (k : String) (db : DB) (hn : hasKey db k = false) :
    recordsFor (transferred k db) k = [⟨k, "user_a", "user_b", 10⟩] := by
  have h0 : db.transactions.filter (fun t => t.idempotency_key == k) = [] := by
    rw [List.filter_eq_nil_iff]
    intro t ht hb
    have : hasKey db k = true := List.any_eq_true.2 ⟨t, ht, hb⟩
    rw [hn] at this; cases this
  simp [recordsFor, transferred, List.filter_append, h0]

/-- Calls with a key that is in the ledger, without storage failures, are all
answered by the fast path and leave the store alone. -/
theorem serve_replays (k : String) (hk : k ≠ "") (m : Nat) (db : DB)
    (hd : hasKey db k = true) :
    serve (List.replicate m (noFaults, k)) db
      = (List.replicate m (some replayResponse), db) := by
  induction m with
  | zero => rfl
  | succ m ih =>
    have hq : queryRow noFaults db k = true := by simp [queryRow, noFaults, hd]
    simp only [List.replicate_succ, serve, handler_replay noFaults k db hk hq, ih]

/-- C1, as stated, fails, in two ways.  For the empty key: on the seeded store,
where no ledger row has the empty key, two calls with the empty key and no
storage failure are both answered with the 400 response, none is a fresh
execution, and user_a keeps 100 and user_b keeps 0.  At the 64-bit bound: on a
store where user_a holds the smallest INTEGER, two calls with key k1 are
answered by success and replay, and the cell of user_a is then the REAL -2^63,
not its initial value minus 10. -/
theorem repeated_calls_not_always_once :
    (hasKey seededDB "" = false ∧
      balance seededDB "user_a" = some (Value.int 100) ∧
      balance seededDB "user_b" = some (Value.int 0) ∧
      (serve (List.replicate 2 (noFaults, "")) seededDB).1
        = [some missingKeyResponse, some missingKeyResponse] ∧
      some successResponse ∉ (serve (List.replicate 2 (noFaults, "")) seededDB).1 ∧
      balance (serve (List.replicate 2 (noFaults, "")) seededDB).2 "user_a"
        = some (Value.int 100) ∧
      balance (serve (List.replicate 2 (noFaults, "")) seededDB).2 "user_b"
        = some (Value.int 0) ∧
      recordsFor (serve (List.replicate 2 (noFaults, "")) seededDB).2 "" = []) ∧
    (hasKey poorUserA "k1" = false ∧
      balance poorUserA "user_a" = some (Value.int (-9223372036854775808)) ∧
      balance poorUserA "user_b" = some (Value.int 0) ∧
      (serve (List.replicate 2 (noFaults, "k1")) poorUserA).1
        = [some successResponse, some replayResponse] ∧
      balance (serve (List.replicate 2 (noFaults, "k1")) poorUserA).2 "user_a"
        = some (Value.real (-9223372036854775808)) ∧
      balance (serve (List.replicate 2 (noFaults, "k1")) poorUserA).2 "user_a"
        ≠ some (Value.int (-9223372036854775808 - 10))) := by
  decide

/-- C1, amended: for every non-empty key `k`, every store in which user_a and
user_b have rows holding INTEGERs `a` and `b` with `a - 10` and `b + 10` in the
signed 64-bit range and no ledger row has key `k`, and every `n ≥ 1`, `n`
sequential calls with key `k` in which no storage operation fails (the
database has room for the ledger row) are answered by the success outcome
once, first, and by the replay outcome `n - 1` times; afterwards user_a holds
`a - 10`, user_b holds `b + 10`, and the ledger is the old ledger followed by
the one row (k, user_a, user_b, 10), the only row with key `k`. -/
theorem repeated_calls_execute_once (k : String) (db : DB) (a b : Int) (n : Nat)
    (hk : k ≠ "") (ha : balance db "user_a" = some (Value.int a))
    (hb : balance db "user_b" = some (Value.int b))
    (hra : inInt64 (a - 10) = true) (hrb : inInt64 (b + 10) = true)
    (hn : hasKey db k = false) (hr : hasRoom db = true) (hpos : 1 ≤ n) :
    (serve (List.replicate n (noFaults, k)) db).1
        = some successResponse :: List.replicate (n - 1) (some replayResponse) ∧
      balance (serve (List.replicate n (noFaults, k)) db).2 "user_a"
        = some (Value.int (a - 10)) ∧
      balance (serve (List.replicate n (noFaults, k)) db).2 "user_b"
        = some (Value.int (b + 10)) ∧
      (serve (List.replicate n (noFaults, k)) db).2.transactions
        = db.transactions ++ [⟨k, "user_a", "user_b", 10⟩] ∧
      recordsFor (serve (List.replicate n (noFaults, k)) db).2 k
        = [⟨k, "user_a", "user_b", 10⟩] := by
  obtain ⟨m, rfl⟩ : ∃ m, n = m + 1 := ⟨n - 1, by omega⟩
  have hs : serve (List.replicate (m + 1) (noFaults, k)) db
      = (some successResponse :: List.replicate m (some replayResponse),
          transferred k db) := by
    simp only [List.replicate_succ, serve, handler_fresh k db hk hn hr,
      serve_replays k hk m (transferred k db) (hasKey_transferred k db)]
  have hra2 : inInt64 (a + -10) = true := by simpa [sub_eq_add_neg] using hra
  rw [hs]
  refine ⟨rfl, ?_, ?_, rfl, recordsFor_transferred k db hn⟩
  · rw [balance_transferred_a, ha, Option.map_some', Value.add_int a (-10) hra2]; rfl
  · rw [balance_transferred_b, hb, Option.map_some', Value.add_int b 10 hrb]

/-- Witness of the amended C1: a=100, b=0, key k1 called twice gives a=90, b=10. -/
theorem repeated_calls_execute_once_witness :
    ("k1" : String) ≠ "" ∧ balance seededDB "user_a" = some (Value.int 100) ∧
      balance seededDB "user_b" = some (Value.int 0) ∧
      inInt64 (100 - 10) = true ∧ inInt64 (0 + 10) = true ∧
      hasKey seededDB "k1" = false ∧ hasRoom seededDB = true ∧ 1 ≤ 2 ∧
      (serve (List.replicate 2 (noFaults, "k1")) seededDB).1
        = some successResponse :: List.replicate (2 - 1) (some replayResponse) ∧
      balance (serve (List.replicate 2 (noFaults, "k1")) seededDB).2 "user_a"
        = some (Value.int (100 - 10)) ∧
      balance (serve (List.replicate 2 (noFaults, "k1")) seededDB).2 "user_b"
        = some (Value.int (0 + 10)) :=
  have h := repeated_calls_execute_once "k1" seededDB 100 0 2 (by decide) (by decide)
    (by decide) (by decide) (by decide) (by decide) (by decide) (by decide)
  ⟨by decide, by decide, by decide, by decide, by decide, by decide, by decide, by decide,
    h.1, h.2.1, h.2.2.1⟩

/-! ## The ledger reconciles with the balances -/

theorem hasKey_eq_true_iff (db : DB) (k : String) :
    hasKey db k = true ↔ k ∈ db.transactions.map Transaction.idempotency_key := by
  simp only [hasKey, List.any_eq_true, List.mem_map, beq_iff_eq]

theorem reconciled_seeded : Reconciled seededDB :=
  ⟨by decide, by decide, by decide, fun t ht => by cases ht⟩

theorem reconciled_transferred (k : String) (db : DB) (h : Reconciled db)
    (hn : hasKey db k = false) (hr : hasRoom db = true) : Reconciled (transferred k db) := by
  obtain ⟨hacc, _, hnd, hrec⟩ := h
  have hlen : db.transactions.length < 281474976710656 := by
    simpa [hasRoom, maxLedgerRows] using hr
  refine ⟨?_, ?_, ?_, ?_⟩
  · have hba : ("user_b" : String) ≠ "user_a" := by decide
    have hab : ¬ ("user_a" : String) = "user_b" := by decide
    have ha : inInt64 (100 - 10 * (db.transactions.length : Int) + -10) = true := by
      simp only [inInt64, int64Min, int64Max, Bool.and_eq_true, decide_eq_true_eq]
      omega
    have hb : inInt64 (10 * (db.transactions.length : Int) + 10) = true := by
      simp only [inInt64, int64Min, int64Max, Bool.and_eq_true, decide_eq_true_eq]
      omega
    have e1 : (100 : Int) - 10 * (db.transactions.length : Int) + -10
        = 100 - 10 * ((db.transactions.length : Int) + 1) := by ring
    have e2 : (10 : Int) * (db.transactions.length : Int) + 10
        = 10 * ((db.transactions.length : Int) + 1) := by ring
    simp only [transferred, updateBalance, hacc, List.map_cons, List.map_nil, if_true,
      hba, if_false, List.length_append, List.length_singleton, Nat.cast_add, Nat.cast_one,
      Value.add_int _ _ ha, hab, Value.add_int _ _ hb, e1, e2]
  · simp only [transferred, List.length_append, List.length_singleton, maxLedgerRows]
    omega
  · have hk : k ∉ db.transactions.map Transaction.idempotency_key := by
      intro hm
      have := (hasKey_eq_true_iff db k).2 hm
      rw [hn] at this; cases this
    simp only [transferred, List.map_append, List.map_cons, List.map_nil]
    rw [List.nodup_append]
    refine ⟨hnd, List.nodup_singleton k, ?_⟩
    intro x hx hx2
    rw [List.mem_singleton] at hx2
    exact hk (hx2 ▸ hx)
  · intro t ht
    simp only [transferred, List.mem_append, List.mem_singleton] at ht
    rcases ht with ht | ht
    · exact hrec t ht
    · subst ht; exact ⟨rfl, rfl, rfl⟩

theorem reconciled_handler (f : Faults) (k : String) (db : DB) (h : Reconciled db) :
    Reconciled (paymentHandler f k db).db := by
  rcases handler_db_cases f k db with h1 | ⟨h1, _, hn, hr⟩
  · rw [h1]; exact h
  · rw [h1]; exact reconciled_transferred k db h hn hr

theorem reconciled_serve (calls : List (Faults × String)) (db : DB) (h : Reconciled db) :
    Reconciled (serve calls db).2 := by
  induction calls generalizing db with
  | nil => exact h
  | cons c rest ih =>
    obtain ⟨f, k⟩ := c
    exact ih (paymentHandler f k db).db (reconciled_handler f k db h)

theorem recordsFor_length_le_one (db : DB) (k : String)
    (hnd : (db.transactions.map Transaction.idempotency_key).Nodup) :
    (recordsFor db k).length ≤ 1 := by
  have h1 : (recordsFor db k).length
      = (db.transactions.map Transaction.idempotency_key).count k := by
    rw [List.count, List.countP_map, List.countP_eq_length_filter]
    rfl
  rw [h1]
  exact List.nodup_iff_count_le_one.1 hnd k

/-- C9: after every finite sequence of sequential calls on the seeded store,
with arbitrary header values and arbitrary storage failures in every call, the
ledger holds at most one row per key, every row is (key, user_a, user_b, 10),
user_a holds the INTEGER 100 - 10 * (number of ledger rows) and user_b holds
the INTEGER 10 * (number of ledger rows). -/
theorem ledger_reconciles_with_balances (calls : List (Faults × String)) :
    (∀ k, (recordsFor (serve calls seededDB).2 k).length ≤ 1) ∧
      ((serve calls seededDB).2.transactions.map Transaction.idempotency_key).Nodup ∧
      (∀ t ∈ (serve calls seededDB).2.transactions,
        t = ⟨t.idempotency_key, "user_a", "user_b", 10⟩) ∧
      balance (serve calls seededDB).2 "user_a"
        = some (Value.int
            (100 - 10 * ((serve calls seededDB).2.transactions.length : Int))) ∧
      balance (serve calls seededDB).2 "user_b"
        = some (Value.int (10 * ((serve calls seededDB).2.transactions.length : Int))) := by
  obtain ⟨hacc, _, hnd, hrec⟩ := reconciled_serve calls seededDB reconciled_seeded
  refine ⟨fun k => recordsFor_length_le_one _ k hnd, hnd, ?_, ?_, ?_⟩
  · intro t ht
    obtain ⟨h1, h2, h3⟩ := hrec t ht
    cases t with
    | mk key fu tu am =>
      simp only at h1 h2 h3
      rw [h1, h2, h3]
  · simp [balance, hacc]
  · simp [balance, hacc]

/-! ## Concurrent calls with one key -/

theorem stepAt_spec (k : String) (i : Nat) (cs : List CallState) (db : DB) :
    stepAt k i cs db = (cs, db) ∨
      ∃ pre c post, cs = pre ++ c :: post ∧
        stepAt k i cs db = (pre ++ (stepCall k c db).1 :: post, (stepCall k c db).2) := by
  induction cs generalizing i with
  | nil => left; cases i <;> rfl
  | cons c rest ih =>
    cases i with
    | zero => right; exact ⟨[], c, rest, rfl, rfl⟩
    | succ i =>
      rcases ih i with h | ⟨pre, c2, post, h1, h2⟩
      · left
        simp only [stepAt, h]
      · right
        refine ⟨c :: pre, c2, post, by rw [h1]; rfl, ?_⟩
        simp only [stepAt, h2, List.cons_append]

theorem stepAt_length (k : String) (i : Nat) (cs : List CallState) (db : DB) :
    (stepAt k i cs db).1.length = cs.length := by
  rcases stepAt_spec k i cs db with h | ⟨pre, c, post, h1, h2⟩
  · rw [h]
  · rw [h2, h1]; simp

theorem runSchedule_length (k : String) (s : List Nat) (cs : List CallState) (db : DB) :
    (runSchedule k s cs db).1.length = cs.length := by
  induction s generalizing cs db with
  | nil => rfl
  | cons i rest ih =>
    simp only [runSchedule]
    rw [ih, stepAt_length]

/-- The lookup of a call that starts before anything is committed misses. -/
theorem stepCall_start_fresh (k : String) (db : DB) (hk : k ≠ "")
    (hn : hasKey db k = false) :
    stepCall k CallState.start db = (CallState.lookedUp, db) := by
  simp [stepCall, hk, queryRow, hn]

/-- The lookup of a call that starts after the commit finds the key. -/
theorem stepCall_start_done (k : String) (db : DB) (hk : k ≠ "") :
    stepCall k CallState.start (transferred k db) = (replayedCall, transferred k db) := by
  simp [stepCall, hk, queryRow, noFaults, hasKey_transferred, replayedCall]

/-- The first transaction to run commits the transfer. -/
theorem stepCall_lookedUp_fresh (k : String) (db : DB) (hn : hasKey db k = false)
    (hr : hasRoom db = true) :
    stepCall k CallState.lookedUp db = (executedCall, transferred k db) := by
  simp [stepCall, transact_fresh k db hn hr, executedCall, committedTrace]

/-- A transaction that runs after the commit is rolled back at the insert and
the call returns without a response. -/
theorem stepCall_lookedUp_done (k : String) (db : DB) :
    stepCall k CallState.lookedUp (transferred k db)
      = (CallState.done none insertRejectedTrace, transferred k db) := by
  simp [stepCall, transact_insert_failed noFaults k (transferred k db) rfl rfl rfl
    (Or.inr (Or.inl (hasKey_transferred k db))), insertRejectedTrace]

theorem raceInv_stepAt (k : String) (db0 : DB) (hk : k ≠ "") (hn : hasKey db0 k = false)
    (hr : hasRoom db0 = true) (i : Nat) (cs : List CallState) (db : DB)
    (h : RaceInv k db0 cs db) :
    RaceInv k db0 (stepAt k i cs db).1 (stepAt k i cs db).2 := by
  rcases stepAt_spec k i cs db with he | ⟨pre, c, post, h1, h2⟩
  · rw [he]; exact h
  rw [h2]
  subst h1
  rcases h with ⟨hdb, hall⟩ | ⟨hdb, hcount, hall⟩
  · subst hdb
    have hpre : ∀ x ∈ pre, x = CallState.start ∨ x = CallState.lookedUp :=
      fun x hx => hall x (List.mem_append_left _ hx)
    have hpost : ∀ x ∈ post, x = CallState.start ∨ x = CallState.lookedUp :=
      fun x hx => hall x (List.mem_append_right _ (List.mem_cons_of_mem _ hx))
    rcases hall c (List.mem_append_right _ (List.mem_cons_self _ _)) with hc | hc
    · subst hc
      left
      rw [stepCall_start_fresh k db hk hn]
      refine ⟨rfl, ?_⟩
      intro x hx
      rcases List.mem_append.1 hx with hx | hx
      · exact hpre x hx
      · rcases List.mem_cons.1 hx with hx | hx
        · exact Or.inr hx
        · exact hpost x hx
    · subst hc
      right
      rw [stepCall_lookedUp_fresh k db hn hr]
      refine ⟨rfl, ?_, ?_⟩
      · have c1 : pre.count executedCall = 0 := by
          apply List.count_eq_zero_of_not_mem
          intro hm
          rcases hpre _ hm with h | h <;> exact absurd h (by decide)
        have c2 : post.count executedCall = 0 := by
          apply List.count_eq_zero_of_not_mem
          intro hm
          rcases hpost _ hm with h | h <;> exact absurd h (by decide)
        rw [List.count_append, List.count_cons_self, c1, c2]
      · intro x hx
        rcases List.mem_append.1 hx with hx | hx
        · rcases hpre x hx with h | h
          · exact Or.inl h
          · exact Or.inr (Or.inl h)
        · rcases List.mem_cons.1 hx with hx | hx
          · exact Or.inr (Or.inr (Or.inl hx))
          · rcases hpost x hx with h | h
            · exact Or.inl h
            · exact Or.inr (Or.inl h)
  · subst hdb
    right
    have hmem : ∀ y, (∀ x ∈ pre ++ y :: post,
        x = CallState.start ∨ x = CallState.lookedUp ∨ x = executedCall ∨
          x = replayedCall ∨ x = CallState.done none insertRejectedTrace) ↔
        ((y = CallState.start ∨ y = CallState.lookedUp ∨ y = executedCall ∨
          y = replayedCall ∨ y = CallState.done none insertRejectedTrace) ∧
        ∀ x ∈ pre ++ post,
          x = CallState.start ∨ x = CallState.lookedUp ∨ x = executedCall ∨
            x = replayedCall ∨ x = CallState.done none insertRejectedTrace) := by
      intro y
      simp only [List.mem_append, List.mem_cons]
      constructor
      · intro hh
        exact ⟨hh y (Or.inr (Or.inl rfl)),
          fun x hx => hh x (hx.elim Or.inl (fun h => Or.inr (Or.inr h)))⟩
      · rintro ⟨hy, hh⟩ x (hx | hx | hx)
        · exact hh x (Or.inl hx)
        · rw [hx]; exact hy
        · exact hh x (Or.inr hx)
    have hrest := ((hmem c).1 hall).2
    have hcnt : ∀ y, (pre ++ y :: post).count executedCall
        = (pre ++ post).count executedCall + (if y = executedCall then 1 else 0) := by
      intro y
      rw [List.count_append, List.count_append, List.count_cons]
      simp only [beq_iff_eq]
      omega
    have hreplay : replayedCall ≠ executedCall := by decide
    have hnone : CallState.done none insertRejectedTrace ≠ executedCall := by decide
    rcases ((hmem c).1 hall).1 with hc | hc | hc | hc | hc
    · subst hc
      rw [stepCall_start_done k db0 hk]
      refine ⟨rfl, ?_, (hmem _).2 ⟨Or.inr (Or.inr (Or.inr (Or.inl rfl))), hrest⟩⟩
      rw [hcnt] at hcount ⊢
      simpa [hreplay] using hcount
    · subst hc
      rw [stepCall_lookedUp_done k db0]
      refine ⟨rfl, ?_, (hmem _).2 ⟨Or.inr (Or.inr (Or.inr (Or.inr rfl))), hrest⟩⟩
      rw [hcnt] at hcount ⊢
      simpa [hnone] using hcount
    · subst hc; exact ⟨rfl, hcount, hall⟩
    · subst hc; exact ⟨rfl, hcount, hall⟩
    · subst hc; exact ⟨rfl, hcount, hall⟩

theorem raceInv_runSchedule (k : String) (db0 : DB) (hk : k ≠ "")
    (hn : hasKey db0 k = false) (hr : hasRoom db0 = true) (s : List Nat)
    (cs : List CallState) (db : DB) (h : RaceInv k db0 cs db) :
    RaceInv k db0 (runSchedule k s cs db).1 (runSchedule k s cs db).2 := by
  induction s generalizing cs db with
  | nil => exact h
  | cons i rest ih =>
    simp only [runSchedule]
    exact ih _ _ (raceInv_stepAt k db0 hk hn hr i cs db h)

theorem raceInv_start (k : String) (db0 : DB) (n : Nat) :
    RaceInv k db0 (List.replicate n CallState.start) db0 :=
  Or.inl ⟨rfl, fun _ hc => Or.inl (List.eq_of_mem_replicate hc)⟩

/-- C8, as stated, fails: two calls with key k1 on the seeded store, both of
which look up before either runs its transaction (first call, second call,
first call, second call).  The first call commits and answers with the success
outcome; the insert of the second is rejected, its unit is rolled back and it
does not resolve to the replay outcome. -/
theorem concurrent_loser_not_replayed :
    hasKey seededDB "k1" = false ∧
      runSchedule "k1" [0, 1, 0, 1] [CallState.start, CallState.start] seededDB
        = ([executedCall, CallState.done none insertRejectedTrace],
            transferred "k1" seededDB) ∧
      (runSchedule "k1" [0, 1, 0, 1] [CallState.start, CallState.start] seededDB).1
        ≠ [executedCall, replayedCall] ∧
      (∀ t, CallState.done (some replayResponse) t ∉
        (runSchedule "k1" [0, 1, 0, 1] [CallState.start, CallState.start] seededDB).1) := by
  refine ⟨by decide, by decide, by decide, ?_⟩
  intro t ht
  have h : runSchedule "k1" [0, 1, 0, 1] [CallState.start, CallState.start] seededDB
      = ([executedCall, CallState.done none insertRejectedTrace],
          transferred "k1" seededDB) := by decide
  rw [h] at ht
  simp [executedCall] at ht
  exact absurd ht.1 (by decide)

/-- C8, amended: for every `n ≥ 2`, every non-empty key `k`, every store in which
`k` has no ledger row, user_a and user_b hold INTEGERs `a` and `b` with `a - 10`
and `b + 10` in the signed 64-bit range and the database has room for the
ledger row, and every interleaving of the lookups and the transactions of `n`
calls with key `k` (transactions one at a time, no storage failure) after which
all calls have returned: exactly one ledger row with key `k` is committed,
exactly one call commits and answers with the success outcome, every other
call is answered by the fast path with the replay outcome or has its insert
rejected and its unit rolled back, answering neither success nor replay, and
user_a holds `a - 10` and user_b holds `b + 10`. -/
theorem concurrent_calls_commit_once (n : Nat) (k : String) (db : DB) (a b : Int)
    (s : List Nat) (hn2 : 2 ≤ n) (hk : k ≠ "") (hn : hasKey db k = false)
    (hr : hasRoom db = true) (ha : balance db "user_a" = some (Value.int a))
    (hb : balance db "user_b" = some (Value.int b))
    (hra : inInt64 (a - 10) = true) (hrb : inInt64 (b + 10) = true)
    (hret : ∀ c ∈ (runSchedule k s (List.replicate n CallState.start) db).1,
      c.returned = true) :
    (runSchedule k s (List.replicate n CallState.start) db).1.length = n ∧
      (runSchedule k s (List.replicate n CallState.start) db).2.transactions
        = db.transactions ++ [⟨k, "user_a", "user_b", 10⟩] ∧
      recordsFor (runSchedule k s (List.replicate n CallState.start) db).2 k
        = [⟨k, "user_a", "user_b", 10⟩] ∧
      (runSchedule k s (List.replicate n CallState.start) db).1.count executedCall = 1 ∧
      (∀ c ∈ (runSchedule k s (List.replicate n CallState.start) db).1,
        c = executedCall ∨ c = replayedCall ∨
          ∃ r, c = CallState.done r insertRejectedTrace ∧ r ≠ some successResponse ∧
            r ≠ some replayResponse) ∧
      balance (runSchedule k s (List.replicate n CallState.start) db).2 "user_a"
        = some (Value.int (a - 10)) ∧
      balance (runSchedule k s (List.replicate n CallState.start) db).2 "user_b"
        = some (Value.int (b + 10)) := by
  have hlen : (runSchedule k s (List.replicate n CallState.start) db).1.length = n := by
    rw [runSchedule_length, List.length_replicate]
  have hinv := raceInv_runSchedule k db hk hn hr s _ db (raceInv_start k db n)
  revert hret hlen hinv
  generalize runSchedule k s (List.replicate n CallState.start) db = fin
  intro hret hlen hinv
  rcases hinv with ⟨_, hall⟩ | ⟨hdb, hcount, hall⟩
  · exfalso
    cases hf : fin.1 with
    | nil => rw [hf] at hlen; simp at hlen; omega
    | cons c rest =>
      have hc : c ∈ fin.1 := by rw [hf]; exact List.mem_cons_self _ _
      have h1 := hret c hc
      rcases hall c hc with h | h <;> rw [h] at h1 <;> cases h1
  · have hra2 : inInt64 (a + -10) = true := by simpa [sub_eq_add_neg] using hra
    refine ⟨hlen, ?_, ?_, hcount, ?_, ?_, ?_⟩
    · rw [hdb]; rfl
    · rw [hdb]; exact recordsFor_transferred k db hn
    · intro c hc
      have h1 := hret c hc
      rcases hall c hc with h | h | h | h | h
      · rw [h] at h1; cases h1
      · rw [h] at h1; cases h1
      · exact Or.inl h
      · exact Or.inr (Or.inl h)
      · exact Or.inr (Or.inr ⟨none, h, by simp, by simp⟩)
    · rw [hdb, balance_transferred_a, ha, Option.map_some', Value.add_int a (-10) hra2]; rfl
    · rw [hdb, balance_transferred_b, hb, Option.map_some', Value.add_int b 10 hrb]

/-- Witness of the amended C8: two calls with key k1 on the seeded store, both
looking up before either transaction runs. -/
theorem concurrent_calls_commit_once_witness :
    2 ≤ 2 ∧ ("k1" : String) ≠ "" ∧ hasKey seededDB "k1" = false ∧
      hasRoom seededDB = true ∧
      (∀ c ∈ (runSchedule "k1" [0, 1, 0, 1] (List.replicate 2 CallState.start) seededDB).1,
        c.returned = true) ∧
      (runSchedule "k1" [0, 1, 0, 1] (List.replicate 2 CallState.start) seededDB).1.count
        executedCall = 1 ∧
      balance (runSchedule "k1" [0, 1, 0, 1] (List.replicate 2 CallState.start) seededDB).2
        "user_a" = some (Value.int (100 - 10)) ∧
      balance (runSchedule "k1" [0, 1, 0, 1] (List.replicate 2 CallState.start) seededDB).2
        "user_b" = some (Value.int (0 + 10)) :=
  have h := concurrent_calls_commit_once 2 "k1" seededDB 100 0 [0, 1, 0, 1] (by decide)
    (by decide) (by decide) (by decide) (by decide) (by decide) (by decide) (by decide)
    (by decide)
  ⟨by decide, by decide, by decide, by decide, by decide, h.2.2.2.1, h.2.2.2.2.2.1,
    h.2.2.2.2.2.2⟩

end VPS
